import Mathlib

set_option autoImplicit false

/-!
Shallow embedding of the classwork record model
(src/classwork/meta.py, src/classwork/bases.py, src/classwork/codecs.py).

Python dictionaries are modeled as insertion-ordered association lists over
string keys: dict.update replaces the value of an existing key in place and
appends fresh keys, dict.pop removes the entry of a key.  JSON-compatible
attribute values are modeled by the inductive type Value.  The json.dumps and
json.loads calls in to_json_str and from_json use ClassworkEncoder and
ClassworkDecoder, which add nothing to the stock JSON codecs, so the textual
serialization layer is modeled as the identity on envelope objects.
-/

namespace Classwork

/-- JSON-compatible Python attribute values. -/
inductive Value where
  | null
  | bool (b : Bool)
  | int (n : Int)
  | str (s : String)
  | list (xs : List Value)
  | dict (kvs : List (String × Value))

/-- Association lists over string keys, modeling insertion-ordered Python
dicts. -/
abbrev AList (α : Type) := List (String × α)

/-- Python d[k] lookup (first, hence only, occurrence of the key). -/
def aget {α : Type} : AList α → String → Option α
  | [], _ => Option.none
  | (k', v) :: rest, k => if k' = k then Option.some v else aget rest k

/-- Python d[k] = v: replace the value of an existing key in place, append a
fresh key at the end. -/
def aset {α : Type} : AList α → String → α → AList α
  | [], k, v => [(k, v)]
  | (k', v') :: rest, k, v =>
      if k' = k then (k, v) :: rest else (k', v') :: aset rest k v

/-- Python d.pop(k) and del d[k]: drop the entry of the key. -/
def aerase {α : Type} : AList α → String → AList α
  | [], _ => []
  | (k', v') :: rest, k => if k' = k then rest else (k', v') :: aerase rest k

/-- Python d.update(e): merge e into d, entries of e winning. -/
def aupdate {α : Type} (d e : AList α) : AList α :=
  e.foldl (fun acc kv => aset acc kv.1 kv.2) d

/-- Python list(d.keys()). -/
def akeys {α : Type} (d : AList α) : List String := d.map Prod.fst

/-- Python (k in d). -/
def hasKey {α : Type} (d : AList α) (k : String) : Bool := (aget d k).isSome

/-- Python s.startswith(pre), stated over the character lists so that it
evaluates inside the kernel. -/
def pyStartswith (s pre : String) : Bool := pre.data.isPrefixOf s.data

theorem akeys_nil {α : Type} : akeys ([] : AList α) = [] := rfl

theorem akeys_cons {α : Type} (k : String) (v : α) (d : AList α) :
    akeys ((k, v) :: d) = k :: akeys d := rfl

theorem not_mem_akeys_cons {α : Type} {k k' : String} {v : α} {d : AList α}
    (h : k ∉ akeys ((k', v) :: d)) : k ≠ k' ∧ k ∉ akeys d := by
  rw [akeys_cons, List.mem_cons] at h
  push_neg at h
  exact h

theorem aget_aset_self {α : Type} (d : AList α) (k : String) (v : α) :
    aget (aset d k v) k = some v := by
  induction d with
  | nil => simp [aset, aget]
  | cons kv rest ih =>
      obtain ⟨k', v'⟩ := kv
      by_cases h : k' = k
      · simp [aset, h, aget]
      · simp [aset, h, aget, ih]

theorem aget_aset_ne {α : Type} (d : AList α) (k k' : String) (v : α)
    (h : k ≠ k') : aget (aset d k v) k' = aget d k' := by
  have hne : ¬ k = k' := h
  induction d with
  | nil => simp [aset, aget, hne]
  | cons kv rest ih =>
      obtain ⟨k0, v0⟩ := kv
      by_cases hk : k0 = k
      · subst hk
        simp [aset, aget, hne]
      · have hne' : ¬ k' = k := fun hh => h hh.symm
        by_cases hk' : k0 = k'
        · subst hk'
          simp [aset, hk, aget, hne']
        · simp [aset, hk, aget, hk', ih]

theorem aget_eq_none {α : Type} (d : AList α) (k : String)
    (h : k ∉ akeys d) : aget d k = none := by
  induction d with
  | nil => simp [aget]
  | cons kv rest ih =>
      obtain ⟨k0, v0⟩ := kv
      obtain ⟨h1, h2⟩ := not_mem_akeys_cons h
      have h1' : ¬ k0 = k := fun hh => h1 hh.symm
      simp [aget, h1']
      exact ih h2

theorem aset_eq_append {α : Type} (d : AList α) (k : String) (v : α)
    (h : k ∉ akeys d) : aset d k v = d ++ [(k, v)] := by
  induction d with
  | nil => simp [aset]
  | cons kv rest ih =>
      obtain ⟨k0, v0⟩ := kv
      obtain ⟨h1, h2⟩ := not_mem_akeys_cons h
      have h1' : ¬ k0 = k := fun hh => h1 hh.symm
      simp [aset, h1']
      exact ih h2

theorem aget_append_left {α : Type} (d e : AList α) (k : String) (v : α)
    (h : aget d k = some v) : aget (d ++ e) k = some v := by
  induction d with
  | nil => simp [aget] at h
  | cons kv rest ih =>
      obtain ⟨k0, v0⟩ := kv
      by_cases hk : k0 = k
      · simpa [aget, hk] using h
      · simp [aget, hk] at h ⊢
        exact ih h

theorem aget_append_right {α : Type} (d e : AList α) (k : String)
    (h : k ∉ akeys d) : aget (d ++ e) k = aget e k := by
  induction d with
  | nil => simp
  | cons kv rest ih =>
      obtain ⟨k0, v0⟩ := kv
      obtain ⟨h1, h2⟩ := not_mem_akeys_cons h
      have h1' : ¬ k0 = k := fun hh => h1 hh.symm
      simp [aget, h1']
      exact ih h2

theorem aerase_not_mem {α : Type} (d : AList α) (k : String)
    (h : k ∉ akeys d) : aerase d k = d := by
  induction d with
  | nil => simp [aerase]
  | cons kv rest ih =>
      obtain ⟨k0, v0⟩ := kv
      obtain ⟨h1, h2⟩ := not_mem_akeys_cons h
      have h1' : ¬ k0 = k := fun hh => h1 hh.symm
      simp [aerase, h1']
      exact ih h2

theorem aget_aerase_ne {α : Type} (d : AList α) (k k' : String)
    (h : k ≠ k') : aget (aerase d k) k' = aget d k' := by
  have hne : ¬ k = k' := h
  induction d with
  | nil => simp [aerase]
  | cons kv rest ih =>
      obtain ⟨k0, v0⟩ := kv
      by_cases hk : k0 = k
      · subst hk
        simp [aerase, aget, hne]
      · have hne' : ¬ k' = k := fun hh => h hh.symm
        by_cases hk' : k0 = k'
        · subst hk'
          simp [aerase, hk, aget, hne']
        · simp [aerase, hk, aget, hk', ih]

theorem aupdate_nil_right {α : Type} (d : AList α) : aupdate d [] = d := rfl

theorem aupdate_cons {α : Type} (d : AList α) (k : String) (v : α)
    (e : AList α) : aupdate d ((k, v) :: e) = aupdate (aset d k v) e := rfl

theorem aget_aupdate_not_mem {α : Type} (d e : AList α) (k : String)
    (h : k ∉ akeys e) : aget (aupdate d e) k = aget d k := by
  induction e generalizing d with
  | nil => rfl
  | cons kv rest ih =>
      obtain ⟨k0, v0⟩ := kv
      obtain ⟨h1, h2⟩ := not_mem_akeys_cons h
      rw [aupdate_cons, ih _ h2, aget_aset_ne _ _ _ _ (fun hh => h1 hh.symm)]

theorem aget_aupdate_mem_nodup {α : Type} (d e : AList α) (k : String)
    (hnd : (akeys e).Nodup) (h : k ∈ akeys e) :
    aget (aupdate d e) k = aget e k := by
  induction e generalizing d with
  | nil => simp [akeys] at h
  | cons kv rest ih =>
      obtain ⟨k0, v0⟩ := kv
      rw [akeys_cons, List.nodup_cons] at hnd
      by_cases hk : k0 = k
      · have hnr : k ∉ akeys rest := by
          rw [← hk]; exact hnd.1
        rw [aupdate_cons, aget_aupdate_not_mem _ _ _ hnr, hk, aget_aset_self]
        simp [aget, hk]
      · have hmem : k ∈ akeys rest := by
          rw [akeys_cons, List.mem_cons] at h
          rcases h with h | h
          · exact absurd h.symm hk
          · exact h
        rw [aupdate_cons, ih _ hnd.2 hmem]
        simp [aget, hk]

theorem aupdate_eq_append {α : Type} (d e : AList α)
    (hnd : (akeys e).Nodup) (hdisj : ∀ k ∈ akeys e, k ∉ akeys d) :
    aupdate d e = d ++ e := by
  induction e generalizing d with
  | nil => simp [aupdate_nil_right]
  | cons kv rest ih =>
      obtain ⟨k0, v0⟩ := kv
      rw [akeys_cons, List.nodup_cons] at hnd
      have hk0 : k0 ∉ akeys d := by
        apply hdisj k0
        rw [akeys_cons]
        exact List.mem_cons_self _ _
      have hstep : aset d k0 v0 = d ++ [(k0, v0)] := aset_eq_append _ _ _ hk0
      have hdisj' : ∀ k ∈ akeys rest, k ∉ akeys (d ++ [(k0, v0)]) := by
        intro k hk
        have h1 : k ∉ akeys d := by
          apply hdisj k
          rw [akeys_cons]
          exact List.mem_cons_of_mem _ hk
        have h2 : k0 ≠ k := fun hh => hnd.1 (hh ▸ hk)
        intro hmem
        rw [show akeys (d ++ [(k0, v0)]) = akeys d ++ [k0] by
          simp [akeys]] at hmem
        rcases List.mem_append.mp hmem with hm | hm
        · exact h1 hm
        · have hkk : k = k0 := by simpa using hm
          exact h2 hkk.symm
      rw [aupdate_cons, hstep, ih (d ++ [(k0, v0)]) hnd.2 hdisj']
      simp

theorem aupdate_nil_left_of_nodup {α : Type} (d : AList α)
    (hnd : (akeys d).Nodup) : aupdate [] d = d := by
  have := aupdate_eq_append ([] : AList α) d hnd (by simp [akeys])
  simpa using this

theorem aget_filter {α : Type} (p : String → Bool) (d : AList α)
    (k : String) :
    aget (d.filter (fun kv => p kv.1)) k = if p k then aget d k else none := by
  induction d with
  | nil => simp [aget]
  | cons kv rest ih =>
      by_cases hk : kv.1 = k
      · by_cases hp : p k
        · simp [List.filter_cons, hk, hp, aget]
        · simp [List.filter_cons, hk, hp, aget, ih]
      · by_cases hp : p kv.1
        · simp [List.filter_cons, hp, aget, hk, ih]
        · simp [List.filter_cons, hp, aget, hk, ih]

theorem akeys_filter {α : Type} (p : String → Bool) (d : AList α) :
    akeys (d.filter (fun kv => p kv.1)) = (akeys d).filter p := by
  induction d with
  | nil => rfl
  | cons kv rest ih =>
      by_cases hp : p kv.1
      · simp [List.filter_cons, hp, akeys, List.filter] at ih ⊢
        simpa [hp] using ih
      · simp [List.filter_cons, hp, akeys, List.filter] at ih ⊢
        simpa [hp] using ih

theorem nodup_akeys_filter {α : Type} (p : String → Bool) (d : AList α)
    (h : (akeys d).Nodup) : (akeys (d.filter (fun kv => p kv.1))).Nodup := by
  rw [akeys_filter]
  exact h.filter p

/-- Python dicts of attribute values. -/
abbrev Assoc := AList Value

/-- Errors raised by the embedded operations (KeyError, AttributeError,
TypeError, AssertionError, and the bare Exception raised for an unknown
class tag in ClassworkAbc.new). -/
inductive Err where
  | keyError (s : String)
  | attributeError (s : String)
  | typeError (s : String)
  | assertionError (s : String)
  | unknownClass (s : String)
deriving DecidableEq

/-- Kind of an entry of a class dict: a function (ismethod on instance
access), a nested class (isclass), or a plain data attribute. -/
inductive MemberKind where
  | method
  | nested
  | plain
deriving DecidableEq

/-- An entry of a Python class dict: its kind plus its value (the value is
only consulted for plain data attributes and the defaults projection). -/
structure Member where
  kind : MemberKind
  v : Value

/-- A Python class as the classwork metamodel sees it: dunder name,
qualname and module, the single base class it registers under (by name),
and its own class dict.  Class identity is modeled by the class name,
unique within an environment. -/
structure PyClass where
  module : String
  name : String
  qualname : String
  base : Option String
  classDict : AList Member

/-- The collection of classes known at call time (the subclass registry). -/
abbrev Env := List PyClass

def findCls (env : Env) (n : String) : Option PyClass :=
  env.find? (fun c => c.name == n)

/-- ClassworkAbc.cls_nm: the module-qualified class identity. -/
def cls_nm (c : PyClass) : String := c.module ++ "." ++ c.qualname

/-- cls.subclasses(): the direct subclasses of a class known at call
time. -/
def subclassesOf (env : Env) (c : PyClass) : List PyClass :=
  env.filter (fun s => s.base == Option.some c.name)

/-- Attribute lookup along the base-class chain (fuelled; the chain is
acyclic and no longer than the environment). -/
def classGetattr (env : Env) : Nat → PyClass → String → Option Member
  | 0, _, _ => Option.none
  | Nat.succ fuel, c, attr =>
    match aget c.classDict attr with
    | Option.some m => Option.some m
    | Option.none =>
      match c.base with
      | Option.none => Option.none
      | Option.some b =>
        match findCls env b with
        | Option.none => Option.none
        | Option.some c' => classGetattr env fuel c' attr

def clsAttr (env : Env) (c : PyClass) (attr : String) : Option Member :=
  classGetattr env (env.length + 1) c attr

/-- A record instance: its concrete class and its insertion-ordered
instance dict. -/
structure Record where
  cls : PyClass
  dict : Assoc

/-- Python getattr(self, attr): the instance dict first, then the class
chain. -/
def getattrR (env : Env) (r : Record) (attr : String) : Option Value :=
  match aget r.dict attr with
  | Option.some v => Option.some v
  | Option.none => (clsAttr env r.cls attr).map Member.v

/-- ClassworkAbc.getitem (bases.py routes ClassWorkBase.getitem straight to
it): hasattr check, then getattr; raises KeyError when the attribute is
missing. -/
def getitem (env : Env) (r : Record) (attr : String) : Except Err Value :=
  match getattrR env r attr with
  | Option.some v => Except.ok v
  | Option.none => Except.error (Err.keyError attr)

def strListVal (l : List String) : Value := Value.list (l.map Value.str)

def valStr : Value → Option String
  | Value.str s => Option.some s
  | _ => Option.none

def valStrs : List Value → Option (List String)
  | [] => Option.some []
  | v :: rest =>
    match valStr v with
    | Option.some s => (valStrs rest).map (fun l => s :: l)
    | Option.none => Option.none

def valStrList : Value → Option (List String)
  | Value.list xs => valStrs xs
  | _ => Option.none

/-- The instance attribute self.default-attrs read by ClassWorkBase
setitem and iter (stored under the private name at construction). -/
def storedDefaults (env : Env) (r : Record) : Option (List String) :=
  (getattrR env r "_default_attrs").bind valStrList

/-- ClassWorkBase.setitem: names outside the declared-default list are
stored under the underscore-prefixed private alias; the store itself is
plain setattr via ClassworkAbc.setitem. -/
def setitemB (env : Env) (r : Record) (attr : String) (v : Value) :
    Except Err Record :=
  match storedDefaults env r with
  | Option.none => Except.error (Err.attributeError "_default_attrs")
  | Option.some ds =>
    Except.ok
      { r with dict := aset r.dict (if attr ∈ ds then attr else "_" ++ attr) v }

/-- The declared-default attribute surface computed in
ClassWorkBase.init: own class-dict names whose values are neither methods
nor classes and that do not start with an underscore. -/
def defaultAttrs (c : PyClass) : List String :=
  (c.classDict.filter
    (fun kv => kv.2.kind == MemberKind.plain && !(pyStartswith kv.1 "_"))).map
    Prod.fst

/-- ClassWorkBase.iter: yields the declared-default names recorded on the
instance. -/
def iterKeys (env : Env) (r : Record) : Option (List String) :=
  storedDefaults env r

/-- The public filter of asdict: drop underscore-prefixed keys. -/
def publicPart (d : Assoc) : Assoc :=
  d.filter (fun kv => !(pyStartswith kv.1 "_"))

/-- The class-level layer of asdict with defaults=true: own class-dict
entries whose names do not start with a double underscore. -/
def classDefaultsDict (c : PyClass) : Assoc :=
  (c.classDict.filter (fun kv => !(pyStartswith kv.1 "__"))).map
    (fun kv => (kv.1, kv.2.v))

/-- ClassWorkBase.asdict(defaults, hidden). -/
def asdict (r : Record) (defaults hidden : Bool) : Assoc :=
  let dct : Assoc := if defaults then aupdate [] (classDefaultsDict r.cls) else []
  let dct := aupdate dct r.dict
  if hidden then dct else publicPart dct

/-- ClassWorkBase.class-dict: the interchange envelope.  Its type tag is
the bare dunder name of the concrete class. -/
def class_dict (r : Record) (defaults hidden : Bool) : Assoc :=
  [("_cls", Value.str r.cls.name), ("_params", Value.dict (asdict r defaults hidden))]

/-- ClassWorkBase.to_json_str modeled at the JSON-tree level: the stock
encoder serializes the envelope dict, and loads inverts dumps, so the text
is represented by the envelope object itself. -/
def to_json_str (r : Record) (defaults hidden : Bool) : Assoc :=
  class_dict r defaults hidden

/-- ClassworkAbc.init given an already-allocated instance: copy params,
merge kwargs, drop a leftover class tag, then apply every entry through
setitem. -/
def abcInit (env : Env) (self : Record) (params kwargs : Assoc) :
    Except Err Record :=
  (aerase (aupdate (aupdate [] params) kwargs) "_cls").foldlM
    (fun r kv => setitemB env r kv.1 kv.2) self

/-- ClassWorkBase.init for class c: compute the declared-default surface,
store it on the instance under the private name, then run
ClassworkAbc.init. -/
def cwbInit (env : Env) (c : PyClass) (params kwargs : Assoc) :
    Except Err Record :=
  abcInit env ⟨c, [("_default_attrs", strListVal (defaultAttrs c))]⟩
    params kwargs

/-- The lookup table built by ClassworkAbc.new: the receiving class under
its module-qualified identity and its qualname, then identity and qualname
entries for every direct subclass (later entries win). -/
def dispatchTable (env : Env) (cls : PyClass) : AList PyClass :=
  aupdate
    (aupdate (aset (aset ([] : AList PyClass) (cls_nm cls) cls) cls.qualname cls)
      ((subclassesOf env cls).map (fun s => (cls_nm s, s))))
    ((subclassesOf env cls).map (fun s => (s.qualname, s)))

/-- ClassworkAbc.new: merge kwargs into params in place; when a class tag
is present, pop it, resolve it through the dispatch table (failing with the
unknown-class exception), then pop a nested params payload and merge it
into the top level.  Returns the class to instantiate together with the
params object as mutated (the caller holds the same object). -/
def cwNewRun (env : Env) (cls : PyClass) (params kwargs : Assoc) :
    Except Err PyClass × Assoc :=
  match aget (aupdate params kwargs) "_cls" with
  | Option.none => (Except.ok cls, aupdate params kwargs)
  | Option.some clsv =>
    match (match clsv with
           | Value.str s => aget (dispatchTable env cls) s
           | _ => Option.none) with
    | Option.none =>
        (Except.error (Err.unknownClass (match clsv with
          | Value.str s => s
          | _ => "")), aerase (aupdate params kwargs) "_cls")
    | Option.some c' =>
      match aget (aerase (aupdate params kwargs) "_cls") "_params" with
      | Option.none => (Except.ok c', aerase (aupdate params kwargs) "_cls")
      | Option.some (Value.dict pp) =>
          (Except.ok c',
            aupdate (aerase (aerase (aupdate params kwargs) "_cls") "_params") pp)
      | Option.some _ =>
          (Except.error (Err.typeError "_params"),
            aerase (aerase (aupdate params kwargs) "_cls") "_params")

/-- The observable outcome of one constructor call: the instance (or the
exception) and the post-call state of the params object that new
mutated. -/
structure CallOut where
  res : Except Err Record
  state : Assoc

/-- cls(params, **kwargs) with params passed positionally: new and init
receive the very same params object, so init sees the mutations new made
to it. -/
def cwCallPos (env : Env) (cls : PyClass) (params kwargs : Assoc) : CallOut :=
  match cwNewRun env cls params kwargs with
  | (Except.error e, p') => ⟨Except.error e, p'⟩
  | (Except.ok c', p') => ⟨cwbInit env c' p' kwargs, p'⟩

/-- cls(**kwargs) with no positional params: new receives its module-level
shared default dict (the state d) and mutates it in place, while init
receives its own default dict, which it copies and never mutates, so init
effectively starts from the empty mapping. -/
def cwCallKw (env : Env) (cls : PyClass) (d kwargs : Assoc) : CallOut :=
  match cwNewRun env cls d kwargs with
  | (Except.error e, p') => ⟨Except.error e, p'⟩
  | (Except.ok c', p') => ⟨cwbInit env c' [] kwargs, p'⟩

/-- ClassWorkBase.from_json on inline text: build a fresh dict from the
parsed envelope and call the class on it positionally. -/
def from_json (env : Env) (cls : PyClass) (payload : Assoc) :
    Except Err Record :=
  (cwCallPos env cls (aupdate [] payload) []).res

/-- Python values as seen by MultiIndexDict.keymatch: the scalar types of
its scalars tuple (str, date, int, Enum; float omitted), the unset marker
None, ordered sequences (lists), keyed maps (dicts), and half-open ranges
(range with integer endpoints; slice behaves the same way in the code and
is not modeled separately). -/
inductive PyVal where
  | none
  | str (s : String)
  | int (n : Int)
  | date (d : Nat)
  | enum (e : String)
  | list (xs : List PyVal)
  | dict (kvs : List (PyVal × PyVal))
  | rng (start stop : Int)

mutual

/-- Python equality between modeled values: componentwise within one
shape, false across shapes. -/
def pvBeq : PyVal → PyVal → Bool
  | PyVal.none, PyVal.none => true
  | PyVal.str a, PyVal.str b => a == b
  | PyVal.int a, PyVal.int b => a == b
  | PyVal.date a, PyVal.date b => a == b
  | PyVal.enum a, PyVal.enum b => a == b
  | PyVal.list xs, PyVal.list ys => pvBeqList xs ys
  | PyVal.dict xs, PyVal.dict ys => pvBeqPairs xs ys
  | PyVal.rng a b, PyVal.rng c d => a == c && b == d
  | _, _ => false

def pvBeqList : List PyVal → List PyVal → Bool
  | [], [] => true
  | x :: xs, y :: ys => pvBeq x y && pvBeqList xs ys
  | _, _ => false

def pvBeqPairs : List (PyVal × PyVal) → List (PyVal × PyVal) → Bool
  | [], [] => true
  | (k1, v1) :: xs, (k2, v2) :: ys =>
      pvBeq k1 k2 && pvBeq v1 v2 && pvBeqPairs xs ys
  | _, _ => false

end

def isNone : PyVal → Bool
  | PyVal.none => true
  | _ => false

/-- isinstance(x, scalars) with scalars = (str, date, int, float, Enum). -/
def isScalar : PyVal → Bool
  | PyVal.str _ => true
  | PyVal.int _ => true
  | PyVal.date _ => true
  | PyVal.enum _ => true
  | _ => false

/-- isinstance(x, ranges) with ranges = (range, slice). -/
def isRange : PyVal → Bool
  | PyVal.rng _ _ => true
  | _ => false

/-- isinstance(x, Sequence) among the modeled values: str, list and range
register as abstract sequences, dicts do not. -/
def isSeq : PyVal → Bool
  | PyVal.str _ => true
  | PyVal.list _ => true
  | PyVal.rng _ _ => true
  | _ => false

/-- Python (x >= m) against an int bound: defined for ints, a TypeError
for every other modeled shape. -/
def pyGeInt : PyVal → Int → Option Bool
  | PyVal.int n, m => Option.some (decide (m ≤ n))
  | _, _ => Option.none

/-- Python (x < m) against an int bound. -/
def pyLtInt : PyVal → Int → Option Bool
  | PyVal.int n, m => Option.some (decide (n < m))
  | _, _ => Option.none

/-- set() accepts a value as an element only when it is hashable; lists
and dicts are not. -/
def pvHashable : PyVal → Bool
  | PyVal.list _ => false
  | PyVal.dict _ => false
  | _ => true

/-- Every element of an ordered-sequence operand is hashable (vacuous for
non-lists). -/
def elemsHashable : PyVal → Bool
  | PyVal.list xs => xs.all pvHashable
  | _ => true

/-- Outcome of one keymatch call: a boolean (together with whether the
fall-through diagnostic warning fired) or a raised exception. -/
inductive KMResult where
  | ok (b : Bool) (warned : Bool)
  | raised
deriving DecidableEq

/-- MultiIndexDict.keymatch, rule for rule: None wildcard; scalar
equality; range containment tested with ordering comparisons that raise on
non-int operands (including a range compared with a range); scalar-in-
collection membership (values for maps); sequence intersection through
set(), which raises on unhashable elements; diagnostic warning and False
for everything else. -/
def keymatch (key_x key_y : PyVal) : KMResult :=
  if isNone key_x || isNone key_y then KMResult.ok true false
  else if isScalar key_x && isScalar key_y then
    KMResult.ok (pvBeq key_x key_y) false
  else if isRange key_x || isRange key_y then
    match key_y with
    | PyVal.rng s t =>
      (match pyGeInt key_x s with
       | Option.some b1 =>
         (match pyLtInt key_x t with
          | Option.some b2 => KMResult.ok (b1 && b2) false
          | Option.none => KMResult.raised)
       | Option.none => KMResult.raised)
    | _ =>
      (match key_x with
       | PyVal.rng s t =>
         (match pyGeInt key_y s with
          | Option.some b1 =>
            (match pyLtInt key_y t with
             | Option.some b2 => KMResult.ok (b1 && b2) false
             | Option.none => KMResult.raised)
          | Option.none => KMResult.raised)
       | _ => KMResult.raised)
  else if isScalar key_x != isScalar key_y then
    (if isScalar key_x then
      match key_y with
      | PyVal.list ys => KMResult.ok (ys.any (fun e => pvBeq e key_x)) false
      | PyVal.dict kvs =>
          KMResult.ok (kvs.any (fun kv => pvBeq kv.2 key_x)) false
      | _ => KMResult.ok false false
    else
      match key_x with
      | PyVal.list xs => KMResult.ok (xs.any (fun e => pvBeq e key_y)) false
      | PyVal.dict kvs =>
          KMResult.ok (kvs.any (fun kv => pvBeq kv.2 key_y)) false
      | _ => KMResult.ok false false)
  else if isSeq key_x && isSeq key_y then
    match key_x, key_y with
    | PyVal.list xs, PyVal.list ys =>
      if xs.all pvHashable && ys.all pvHashable then
        KMResult.ok (xs.any (fun a => ys.any (fun b => pvBeq a b))) false
      else KMResult.raised
    | _, _ => KMResult.ok false true
  else KMResult.ok false true

/-- ParamsAbc.setitem: assign under the requested name when the attribute
already exists (instance or class), otherwise under the underscore-
prefixed hidden alias. -/
def pSet (env : Env) (r : Record) (attr : String) (v : Value) : Record :=
  if (getattrR env r attr).isSome then { r with dict := aset r.dict attr v }
  else { r with dict := aset r.dict (if pyStartswith attr "_" then attr else "_" ++ attr) v }

/-- ParamsAbc.getitem: the attribute itself, then its underscore-prefixed
hidden alias, else KeyError. -/
def pGet (env : Env) (r : Record) (attr : String) : Except Err Value :=
  match getattrR env r attr with
  | Option.some v => Except.ok v
  | Option.none =>
    match getattrR env r ("_" ++ attr) with
    | Option.some v => Except.ok v
    | Option.none => Except.error (Err.keyError attr)

/-- ParamsAbc.init: merge params then kwargs into a fresh dict and assign
every entry through setitem. -/
def pInit (env : Env) (c : PyClass) (params kwargs : Assoc) : Record :=
  (aupdate (aupdate [] params) kwargs).foldl
    (fun r kv => pSet env r kv.1 kv.2) ⟨c, []⟩

/-- ParamsAbc.as_dict(hidden, defaults): class-level non-function entries
under instance entries when defaults is set, then the public filter unless
hidden is set. -/
def pAsDict (r : Record) (hidden defaults : Bool) : Assoc :=
  let dct : Assoc :=
    if defaults then
      (r.cls.classDict.filter
        (fun kv => !(kv.2.kind == MemberKind.method) && !(pyStartswith kv.1 "__"))).map
        (fun kv => (kv.1, kv.2.v))
    else []
  let dct := aupdate dct r.dict
  if hidden then dct else publicPart dct

/-- other.keys() as OperableAbc reads it: the keys of the default
projection. -/
def pKeys (r : Record) : List String := akeys (pAsDict r false false)

/-- operator.add on the modeled values. -/
def pyAdd : Value → Value → Except Err Value
  | Value.int a, Value.int b => Except.ok (Value.int (a + b))
  | Value.str a, Value.str b => Except.ok (Value.str (a ++ b))
  | Value.list a, Value.list b => Except.ok (Value.list (a ++ b))
  | _, _ => Except.error (Err.typeError "add")

/-- operator.sub on the modeled values. -/
def pySub : Value → Value → Except Err Value
  | Value.int a, Value.int b => Except.ok (Value.int (a - b))
  | _, _ => Except.error (Err.typeError "sub")

/-- operator.mul on the modeled values. -/
def pyMul : Value → Value → Except Err Value
  | Value.int a, Value.int b => Except.ok (Value.int (a * b))
  | _, _ => Except.error (Err.typeError "mul")

/-- operator.truediv always produces floats, which lie outside the modeled
JSON value universe, so its applications are modeled as failing. -/
def pyDiv : Value → Value → Except Err Value
  | _, _ => Except.error (Err.typeError "truediv")

/-- The operator table op_dct of OperableAbc. -/
def opFn (m : String) : Option (Value → Value → Except Err Value) :=
  if m = "=" ∨ m = "assign" then Option.some (fun _ y => Except.ok y)
  else if m = "+" ∨ m = "add" then Option.some pyAdd
  else if m = "-" ∨ m = "sub" then Option.some pySub
  else if m = "*" ∨ m = "mul" then Option.some pyMul
  else if m = "/" ∨ m = "truediv" then Option.some pyDiv
  else Option.none

/-- OperableAbc.op with an explicit method string: assert both operands
share the concrete class, resolve the operator, overlay the elementwise
results for the keys of other onto the projection of self, and build a new
instance of the shared class from the merged map. -/
def opRun (env : Env) (a b : Record) (method : String) : Except Err Record :=
  if a.cls.name = b.cls.name then
    match opFn method with
    | Option.none => Except.error (Err.attributeError method)
    | Option.some fn =>
      match (pKeys b).foldlM (fun acc k =>
          match pGet env a k with
          | Except.error e => Except.error e
          | Except.ok xa =>
            match pGet env b k with
            | Except.error e => Except.error e
            | Except.ok xb =>
              match fn xa xb with
              | Except.error e => Except.error e
              | Except.ok v => Except.ok (aset acc k v)) ([] : Assoc) with
      | Except.error e => Except.error e
      | Except.ok dct =>
          Except.ok (pInit env a.cls [] (aupdate (pAsDict a false false) dct))
  else
    Except.error
      (Err.assertionError "Can only add together items of the same class")

/-- OperableAbc.add: the plus combinator is wired to the add method. -/
def addOp (env : Env) (a b : Record) : Except Err Record :=
  opRun env a b "add"

/-- A member of a candidate collection: a classwork record or any other
Python value. -/
inductive Item where
  | record (r : Record)
  | val (v : Value)

/-- The shapes ParamSet.check-collection discriminates on: an ordered
sequence, a keyed map, a single bare record, or anything else. -/
inductive CollArg where
  | seq (xs : List Item)
  | map (kvs : List (String × Item))
  | bare (r : Record)
  | other (v : Value)

/-- Subclass test along the base chain (fuelled). -/
def isSubclass (env : Env) : Nat → PyClass → PyClass → Bool
  | 0, _, _ => false
  | Nat.succ fuel, c, tgt =>
    c.name == tgt.name ||
      (match c.base with
       | Option.none => false
       | Option.some b =>
         match findCls env b with
         | Option.none => false
         | Option.some c' => isSubclass env fuel c' tgt)

/-- isinstance(item, child) for collection members. -/
def itemIsinstance (env : Env) (itm : Item) (child : PyClass) : Bool :=
  match itm with
  | Item.record r => isSubclass env (env.length + 1) r.cls child
  | Item.val _ => false

/-- ParamSet.check-collection: sequences are kept, maps contribute their
values, and a bare child instance falls into the isinstance branch, where
tuple(collection) iterates the record and therefore yields its declared
attribute names rather than the one-element tuple holding the record. -/
def check_collection (env : Env) (collection : CollArg) (child : PyClass) :
    Except Err (List Item) :=
  match collection with
  | CollArg.seq xs =>
    if xs.all (fun itm => itemIsinstance env itm child) then Except.ok xs
    else Except.error (Err.assertionError "Expected sequence of child")
  | CollArg.map kvs =>
    if (kvs.map Prod.snd).all (fun itm => itemIsinstance env itm child) then
      Except.ok (kvs.map Prod.snd)
    else Except.error (Err.assertionError "Expected sequence of child")
  | CollArg.bare r =>
    if isSubclass env (env.length + 1) r.cls child then
      match storedDefaults env r with
      | Option.some ds => Except.ok (ds.map (fun k => Item.val (Value.str k)))
      | Option.none => Except.error (Err.attributeError "_default_attrs")
    else Except.error (Err.typeError "Expected sequence of child")
  | CollArg.other _ => Except.error (Err.typeError "Expected sequence of child")

/-- Concrete classes and records used to instantiate the theorems below:
a base class with one declared data attribute and a method, and two direct
subclasses with one declared data attribute each. -/
def baseC : PyClass :=
  { module := "m", name := "Base", qualname := "Base", base := Option.none,
    classDict := [("a", ⟨MemberKind.plain, Value.int 0⟩),
                  ("helper", ⟨MemberKind.method, Value.null⟩)] }

def subXC : PyClass :=
  { module := "m", name := "SubX", qualname := "SubX",
    base := Option.some "Base",
    classDict := [("b", ⟨MemberKind.plain, Value.int 0⟩)] }

def subYC : PyClass :=
  { module := "m", name := "SubY", qualname := "SubY",
    base := Option.some "Base",
    classDict := [("c", ⟨MemberKind.plain, Value.int 0⟩)] }

def env0 : Env := [baseC, subXC, subYC]

/-- A SubX record as built by SubX(b=7). -/
def recX : Record :=
  ⟨subXC, [("_default_attrs", strListVal ["b"]), ("b", Value.int 7)]⟩

/-- A SubY record as built by SubY(c=9). -/
def recY : Record :=
  ⟨subYC, [("_default_attrs", strListVal ["c"]), ("c", Value.int 9)]⟩

/-- C3: keymatch returns exactly the tabulated values: equal scalars match,
unequal scalars do not; 5 lies in range(0,10) and 15 does not; a scalar
matches a sequence containing it; disjoint sequences do not match while
intersecting ones do; an unset operand matches anything; and two maps do
not match, with the diagnostic warning fired. -/
theorem C3_keymatch_table :
    keymatch (PyVal.str "a") (PyVal.str "a") = KMResult.ok true false ∧
    keymatch (PyVal.str "a") (PyVal.str "b") = KMResult.ok false false ∧
    keymatch (PyVal.int 5) (PyVal.rng 0 10) = KMResult.ok true false ∧
    keymatch (PyVal.int 15) (PyVal.rng 0 10) = KMResult.ok false false ∧
    keymatch (PyVal.str "x") (PyVal.list [PyVal.str "x", PyVal.str "y"]) =
      KMResult.ok true false ∧
    keymatch (PyVal.list [PyVal.str "x"]) (PyVal.list [PyVal.str "y"]) =
      KMResult.ok false false ∧
    keymatch (PyVal.list [PyVal.str "x", PyVal.str "y"])
      (PyVal.list [PyVal.str "y", PyVal.str "z"]) = KMResult.ok true false ∧
    keymatch PyVal.none (PyVal.str "anything") = KMResult.ok true false ∧
    keymatch (PyVal.dict [(PyVal.str "a", PyVal.int 1)])
      (PyVal.dict [(PyVal.str "b", PyVal.int 2)]) = KMResult.ok false true := by
  refine ⟨?_, ?_, ?_, ?_, ?_, ?_, ?_, ?_, ?_⟩ <;> decide

/-- C4 counterexample: keymatch is not total; comparing the scalar "a"
against the half-open range raises a TypeError in the ordering test the
range rule performs. -/
theorem C4_counterexample :
    keymatch (PyVal.str "a") (PyVal.rng 0 10) = KMResult.raised := by
  decide

/-- C4 (amended): keymatch returns a boolean and never raises whenever no
operand is a half-open range and every sequence operand has only hashable
elements; combinations not covered by rules 1-5 (such as two maps) return
false with the diagnostic warning.  When a range is involved the ordering
comparisons raise unless the tested operand is an int. -/
theorem C4_keymatch_total_amended :
    (∀ x y : PyVal, isRange x = false → isRange y = false →
      elemsHashable x = true → elemsHashable y = true →
      keymatch x y ≠ KMResult.raised) ∧
    (∀ kxs kys : List (PyVal × PyVal),
      keymatch (PyVal.dict kxs) (PyVal.dict kys) = KMResult.ok false true) := by
  constructor
  · intro x y hx hy hhx hhy
    cases x <;> cases y <;>
      simp_all [keymatch, isNone, isScalar, isRange, isSeq, elemsHashable]
  · intro kxs kys
    rfl

/-- C4 witness: two int scalars fall in the never-raises region. -/
theorem C4_witness :
    keymatch (PyVal.int 3) (PyVal.int 4) ≠ KMResult.raised :=
  C4_keymatch_total_amended.1 (PyVal.int 3) (PyVal.int 4) rfl rfl rfl rfl

theorem valStrs_map (l : List String) : valStrs (l.map Value.str) = some l := by
  induction l with
  | nil => rfl
  | cons x xs ih => simp [valStrs, valStr, ih]

theorem valStrList_strListVal (l : List String) :
    valStrList (strListVal l) = some l := by
  simp [strListVal, valStrList, valStrs_map]

theorem cls_nm_ne_qualname (c : PyClass) : cls_nm c ≠ c.qualname := by
  intro h
  have h2 := congrArg String.length h
  rw [cls_nm, String.length_append, String.length_append] at h2
  have hdot : String.length "." = 1 := rfl
  omega

theorem aget_aupdate_const {α : Type} (t es : AList α) (k : String) (v : α)
    (hex : ∃ e ∈ es, e.1 = k) (hval : ∀ e ∈ es, e.1 = k → e.2 = v) :
    aget (aupdate t es) k = some v := by
  induction es generalizing t with
  | nil =>
      obtain ⟨e, he, _⟩ := hex
      simp at he
  | cons e0 rest ih =>
      obtain ⟨k0, v0⟩ := e0
      rw [aupdate_cons]
      by_cases hr : ∃ e ∈ rest, e.1 = k
      · exact ih _ hr (fun e he hk => hval e (List.mem_cons_of_mem _ he) hk)
      · have hk0 : k0 = k := by
          obtain ⟨e, he, hek⟩ := hex
          rcases List.mem_cons.mp he with h | h
          · rw [h] at hek
            exact hek
          · exact absurd ⟨e, h, hek⟩ hr
        have hnm : k ∉ akeys rest := by
          intro hm
          obtain ⟨e, he, hek⟩ := List.mem_map.mp hm
          exact hr ⟨e, he, hek⟩
        have hv0 : v0 = v := hval (k0, v0) (List.mem_cons_self _ _) hk0
        rw [aget_aupdate_not_mem _ _ _ hnm, hk0, hv0, aget_aset_self]

theorem publicPart_eq_self (d : Assoc)
    (hpub : ∀ p ∈ d, pyStartswith p.1 "_" = false) : publicPart d = d := by
  unfold publicPart
  apply List.filter_eq_self.mpr
  intro p hp
  simp [hpub p hp]

theorem asdict_no_defaults (r : Record) (hnd : (akeys r.dict).Nodup) :
    asdict r false false = publicPart r.dict := by
  unfold asdict
  simp [aupdate_nil_left_of_nodup _ hnd]

/-- Keys surviving the public filter do not start with an underscore. -/
theorem publicPart_mem {d : Assoc} {p : String × Value} (hp : p ∈ publicPart d) :
    p ∈ d ∧ pyStartswith p.1 "_" = false := by
  unfold publicPart at hp
  have := List.mem_filter.mp hp
  refine ⟨this.1, ?_⟩
  have h2 := this.2
  simp at h2
  exact h2

/-- Applying ClassworkAbc.update to fresh declared public keys appends the
entries in order. -/
theorem foldlM_setitemB_append (env : Env) (ds : List String) :
    ∀ (D : Assoc) (acc : Record),
      aget acc.dict "_default_attrs" = some (strListVal ds) →
      (∀ p ∈ D, p.1 ∈ ds) →
      (∀ p ∈ D, p.1 ∉ akeys acc.dict) →
      (akeys D).Nodup →
      D.foldlM (fun r kv => setitemB env r kv.1 kv.2) acc =
        Except.ok ⟨acc.cls, acc.dict ++ D⟩ := by
  intro D
  induction D with
  | nil =>
      intro acc _ _ _ _
      simp only [List.foldlM_nil, List.append_nil]
      rfl
  | cons kv rest ih =>
      intro acc hsd hdecl hfresh hnd
      obtain ⟨k, v⟩ := kv
      rw [akeys_cons, List.nodup_cons] at hnd
      have hstep : setitemB env acc k v =
          Except.ok ⟨acc.cls, acc.dict ++ [(k, v)]⟩ := by
        unfold setitemB storedDefaults getattrR
        rw [hsd]
        simp [valStrList_strListVal, hdecl (k, v) (List.mem_cons_self _ _),
          aset_eq_append _ _ _ (hfresh (k, v) (List.mem_cons_self _ _))]
      have hrec := ih ⟨acc.cls, acc.dict ++ [(k, v)]⟩
        (aget_append_left _ _ _ _ hsd)
        (fun p hp => hdecl p (List.mem_cons_of_mem _ hp))
        (fun p hp => by
          intro hm
          rw [show akeys (acc.dict ++ [(k, v)]) = akeys acc.dict ++ [k] by
            simp [akeys]] at hm
          rcases List.mem_append.mp hm with hm | hm
          · exact hfresh p (List.mem_cons_of_mem _ hp) hm
          · have hpk : p.1 = k := by simpa using hm
            exact hnd.1 (hpk ▸ (List.mem_map.mpr ⟨p, hp, rfl⟩)))
        hnd.2
      rw [List.foldlM_cons, hstep]
      show List.foldlM (fun r kv => setitemB env r kv.1 kv.2)
          ⟨acc.cls, acc.dict ++ [(k, v)]⟩ rest =
        Except.ok ⟨acc.cls, acc.dict ++ (k, v) :: rest⟩
      rw [hrec]
      simp [List.append_assoc]

/-- ClassWorkBase.init on a dict of fresh declared public keys: the
declared-default list is stored first, then the entries land verbatim. -/
theorem cwbInit_spec (env : Env) (c : PyClass) (D : Assoc)
    (hnd : (akeys D).Nodup)
    (hpub : ∀ p ∈ D, pyStartswith p.1 "_" = false)
    (hdecl : ∀ p ∈ D, p.1 ∈ defaultAttrs c) :
    cwbInit env c D [] =
      Except.ok ⟨c, ("_default_attrs", strListVal (defaultAttrs c)) :: D⟩ := by
  have h1 : aupdate (aupdate ([] : Assoc) D) [] = D := by
    rw [aupdate_nil_right, aupdate_nil_left_of_nodup D hnd]
  have h2 : aerase D "_cls" = D := by
    apply aerase_not_mem
    intro hm
    obtain ⟨p, hp, hpk⟩ := List.mem_map.mp hm
    have := hpub p hp
    rw [hpk] at this
    exact absurd this (by decide)
  unfold cwbInit abcInit
  rw [h1, h2]
  have hres := foldlM_setitemB_append env (defaultAttrs c) D
    ⟨c, [("_default_attrs", strListVal (defaultAttrs c))]⟩
    (by simp [aget])
    hdecl
    (fun p hp => by
      intro hm
      have hpk : p.1 = "_default_attrs" := by simpa [akeys] using hm
      have := hpub p hp
      rw [hpk] at this
      exact absurd this (by decide))
    hnd
  simpa using hres

/-- Resolving the bare class name through the dispatch table of the class
itself (top-level classes have qualname equal to their name). -/
theorem dispatch_self (env : Env) (c : PyClass)
    (hq : c.qualname = c.name)
    (hns : ∀ s ∈ subclassesOf env c, cls_nm s ≠ c.name ∧ s.qualname ≠ c.name) :
    aget (dispatchTable env c) c.name = some c := by
  unfold dispatchTable
  have hb2 : c.name ∉
      akeys ((subclassesOf env c).map (fun s => (s.qualname, s))) := by
    intro hm
    obtain ⟨p, hp, hpk⟩ := List.mem_map.mp hm
    obtain ⟨s, hs, rfl⟩ := List.mem_map.mp hp
    exact (hns s hs).2 hpk
  have hb1 : c.name ∉
      akeys ((subclassesOf env c).map (fun s => (cls_nm s, s))) := by
    intro hm
    obtain ⟨p, hp, hpk⟩ := List.mem_map.mp hm
    obtain ⟨s, hs, rfl⟩ := List.mem_map.mp hp
    exact (hns s hs).1 hpk
  rw [aget_aupdate_not_mem _ _ _ hb2, aget_aupdate_not_mem _ _ _ hb1]
  have h0 : ¬ cls_nm c = c.qualname := cls_nm_ne_qualname c
  have h1 : ¬ cls_nm c = c.name := by
    rw [← hq]
    exact h0
  simp [aset, aget, h0, h1, hq]

/-- Resolving the bare name of a direct subclass through the dispatch
table of the base. -/
theorem dispatch_sub (env : Env) (c0 c1 : PyClass)
    (h1 : c1 ∈ subclassesOf env c0)
    (hq1 : c1.qualname = c1.name)
    (hu : ∀ s ∈ subclassesOf env c0,
      cls_nm s ≠ c1.name ∧ (s.qualname = c1.name → s = c1)) :
    aget (dispatchTable env c0) c1.name = some c1 := by
  unfold dispatchTable
  apply aget_aupdate_const
  · exact ⟨(c1.qualname, c1), List.mem_map.mpr ⟨c1, h1, rfl⟩, hq1⟩
  · intro e he hek
    obtain ⟨s, hs, rfl⟩ := List.mem_map.mp he
    exact (hu s hs).2 hek

/-- Decoding the envelope emitted for r through any class whose dispatch
table resolves the bare name of the class of r back to that class yields a
record of the same class whose instance dict is the declared-default list
followed by the public projection of r. -/
theorem from_json_to_json_spec (env : Env) (c0 c : PyClass) (r : Record)
    (hc : r.cls = c)
    (ht : aget (dispatchTable env c0) c.name = some c)
    (hnd : (akeys r.dict).Nodup)
    (hdecl : ∀ p ∈ r.dict, pyStartswith p.1 "_" = false → p.1 ∈ defaultAttrs c) :
    from_json env c0 (to_json_str r false false) =
      Except.ok ⟨c, ("_default_attrs", strListVal (defaultAttrs c)) ::
        asdict r false false⟩ := by
  have hD : asdict r false false = publicPart r.dict := asdict_no_defaults r hnd
  have hndD : (akeys (publicPart r.dict)).Nodup := by
    unfold publicPart
    exact nodup_akeys_filter (fun k => !(pyStartswith k "_")) r.dict hnd
  have hpubD : ∀ p ∈ publicPart r.dict, pyStartswith p.1 "_" = false :=
    fun p hp => (publicPart_mem hp).2
  have hdeclD : ∀ p ∈ publicPart r.dict, p.1 ∈ defaultAttrs c := by
    intro p hp
    obtain ⟨hpd, hpub⟩ := publicPart_mem hp
    exact hdecl p hpd hpub
  have henv : to_json_str r false false =
      [("_cls", Value.str c.name), ("_params", Value.dict (publicPart r.dict))] := by
    rw [to_json_str, class_dict, hc, hD]
  have hdiff : ("_cls" : String) ≠ "_params" := by decide
  unfold from_json cwCallPos cwNewRun
  rw [henv]
  have ho : aupdate ([] : Assoc)
      [("_cls", Value.str c.name), ("_params", Value.dict (publicPart r.dict))] =
      [("_cls", Value.str c.name), ("_params", Value.dict (publicPart r.dict))] := by
    simp [aupdate, aset, hdiff]
  rw [ho]
  simp only [aupdate_nil_right]
  have hget : aget
      [("_cls", Value.str c.name), ("_params", Value.dict (publicPart r.dict))]
      "_cls" = some (Value.str c.name) := by
    simp [aget]
  rw [hget]
  have herase : aerase
      [("_cls", Value.str c.name), ("_params", Value.dict (publicPart r.dict))]
      "_cls" = [("_params", Value.dict (publicPart r.dict))] := by
    simp [aerase]
  simp only [herase, ht]
  have hgetp : aget [("_params", Value.dict (publicPart r.dict))] "_params" =
      some (Value.dict (publicPart r.dict)) := by
    simp [aget]
  simp only [hgetp]
  have herase2 : aerase [("_params", Value.dict (publicPart r.dict))] "_params" =
      ([] : Assoc) := by
    simp [aerase]
  simp only [herase2]
  rw [aupdate_nil_left_of_nodup _ hndD]
  rw [cwbInit_spec env c (publicPart r.dict) hndD hpubD hdeclD]
  rw [hD]

/-- The public projection of a freshly decoded record: the stored
declared-default list is hidden, the payload entries are public. -/
theorem asdict_result (c : PyClass) (sv : Value) (D : Assoc)
    (hnd : (akeys D).Nodup)
    (hpub : ∀ p ∈ D, pyStartswith p.1 "_" = false) :
    asdict ⟨c, ("_default_attrs", sv) :: D⟩ false false = D := by
  have hdk : ("_default_attrs" : String) ∉ akeys D := by
    intro hm
    obtain ⟨p, hp, hpk⟩ := List.mem_map.mp hm
    have := hpub p hp
    rw [hpk] at this
    exact absurd this (by decide)
  have hnd2 : (akeys (("_default_attrs", sv) :: D)).Nodup := by
    rw [akeys_cons]
    exact List.nodup_cons.mpr ⟨hdk, hnd⟩
  calc asdict ⟨c, ("_default_attrs", sv) :: D⟩ false false
      = publicPart (("_default_attrs", sv) :: D) :=
        asdict_no_defaults ⟨c, ("_default_attrs", sv) :: D⟩ hnd2
    _ = publicPart D := by
        unfold publicPart
        simp [List.filter_cons,
          show pyStartswith "_default_attrs" "_" = true from by decide]
    _ = D := publicPart_eq_self D hpub

theorem publicPart_nodup_of_nodup (d : Assoc) (hnd : (akeys d).Nodup) :
    (akeys (publicPart d)).Nodup := by
  unfold publicPart
  exact nodup_akeys_filter (fun k => !(pyStartswith k "_")) d hnd

/-- C1: for every Record r with no hand-injected hidden state (its public
instance attributes all belong to the declared-default surface of its
class), decoding the text produced by encoding r with from_json yields a
Record of the same concrete class whose public projection (asdict with
defaults and hidden both false) equals the public projection of r. -/
theorem C1_round_trip (env : Env) (c : PyClass) (r : Record)
    (hc : r.cls = c)
    (hq : c.qualname = c.name)
    (hns : ∀ s ∈ subclassesOf env c, cls_nm s ≠ c.name ∧ s.qualname ≠ c.name)
    (hnd : (akeys r.dict).Nodup)
    (hdecl : ∀ p ∈ r.dict, pyStartswith p.1 "_" = false → p.1 ∈ defaultAttrs c) :
    ∃ r', from_json env c (to_json_str r false false) = Except.ok r' ∧
      r'.cls = c ∧ asdict r' false false = asdict r false false := by
  have ht : aget (dispatchTable env c) c.name = some c := dispatch_self env c hq hns
  refine ⟨_, from_json_to_json_spec env c c r hc ht hnd hdecl, rfl, ?_⟩
  have hD := asdict_no_defaults r hnd
  apply asdict_result
  · rw [hD]
    exact publicPart_nodup_of_nodup r.dict hnd
  · rw [hD]
    exact fun p hp => (publicPart_mem hp).2

/-- C1 witness: a SubX record with one declared public attribute survives
the round trip. -/
theorem C1_witness :
    ∃ r', from_json env0 subXC (to_json_str recX false false) = Except.ok r' ∧
      r'.cls = subXC ∧ asdict r' false false = asdict recX false false :=
  C1_round_trip env0 subXC recX rfl rfl (by decide) (by decide) (by decide)

/-- C2: for two records of two different direct subclasses of a common
base, encoding each and decoding each envelope via the common base
reconstructs each record as an instance of its original concrete subclass
(with its public projection intact), not as an instance of the base. -/
theorem C2_polymorphic_decode (env : Env) (c0 c1 c2 : PyClass)
    (r1 r2 : Record)
    (hc1 : r1.cls = c1) (hc2 : r2.cls = c2)
    (_hdiff : c1.name ≠ c2.name)
    (hs1 : c1 ∈ subclassesOf env c0) (hs2 : c2 ∈ subclassesOf env c0)
    (hq1 : c1.qualname = c1.name) (hq2 : c2.qualname = c2.name)
    (hu1 : ∀ s ∈ subclassesOf env c0,
      cls_nm s ≠ c1.name ∧ (s.qualname = c1.name → s = c1))
    (hu2 : ∀ s ∈ subclassesOf env c0,
      cls_nm s ≠ c2.name ∧ (s.qualname = c2.name → s = c2))
    (hnd1 : (akeys r1.dict).Nodup) (hnd2 : (akeys r2.dict).Nodup)
    (hdecl1 : ∀ p ∈ r1.dict, pyStartswith p.1 "_" = false → p.1 ∈ defaultAttrs c1)
    (hdecl2 : ∀ p ∈ r2.dict, pyStartswith p.1 "_" = false → p.1 ∈ defaultAttrs c2) :
    (∃ r1', from_json env c0 (to_json_str r1 false false) = Except.ok r1' ∧
      r1'.cls = c1 ∧ asdict r1' false false = asdict r1 false false) ∧
    (∃ r2', from_json env c0 (to_json_str r2 false false) = Except.ok r2' ∧
      r2'.cls = c2 ∧ asdict r2' false false = asdict r2 false false) := by
  constructor
  · have ht := dispatch_sub env c0 c1 hs1 hq1 hu1
    refine ⟨_, from_json_to_json_spec env c0 c1 r1 hc1 ht hnd1 hdecl1, rfl, ?_⟩
    have hD := asdict_no_defaults r1 hnd1
    apply asdict_result
    · rw [hD]
      exact publicPart_nodup_of_nodup r1.dict hnd1
    · rw [hD]
      exact fun p hp => (publicPart_mem hp).2
  · have ht := dispatch_sub env c0 c2 hs2 hq2 hu2
    refine ⟨_, from_json_to_json_spec env c0 c2 r2 hc2 ht hnd2 hdecl2, rfl, ?_⟩
    have hD := asdict_no_defaults r2 hnd2
    apply asdict_result
    · rw [hD]
      exact publicPart_nodup_of_nodup r2.dict hnd2
    · rw [hD]
      exact fun p hp => (publicPart_mem hp).2

theorem subclasses_env0 : subclassesOf env0 baseC = [subXC, subYC] := rfl

/-- C2 witness: a SubX record and a SubY record both decode through Base
back to their own subclasses. -/
theorem C2_witness :
    (∃ r1', from_json env0 baseC (to_json_str recX false false) = Except.ok r1' ∧
      r1'.cls = subXC ∧ asdict r1' false false = asdict recX false false) ∧
    (∃ r2', from_json env0 baseC (to_json_str recY false false) = Except.ok r2' ∧
      r2'.cls = subYC ∧ asdict r2' false false = asdict recY false false) := by
  have hu1 : ∀ s ∈ subclassesOf env0 baseC,
      cls_nm s ≠ subXC.name ∧ (s.qualname = subXC.name → s = subXC) := by
    intro s hs
    rw [subclasses_env0] at hs
    rcases List.mem_cons.mp hs with h | h
    · subst h
      exact ⟨by decide, fun _ => rfl⟩
    · have h2 : s = subYC := by simpa using h
      subst h2
      exact ⟨by decide, fun hh => absurd hh (by decide)⟩
  have hu2 : ∀ s ∈ subclassesOf env0 baseC,
      cls_nm s ≠ subYC.name ∧ (s.qualname = subYC.name → s = subYC) := by
    intro s hs
    rw [subclasses_env0] at hs
    rcases List.mem_cons.mp hs with h | h
    · subst h
      exact ⟨by decide, fun hh => absurd hh (by decide)⟩
    · have h2 : s = subYC := by simpa using h
      subst h2
      exact ⟨by decide, fun _ => rfl⟩
  have hs1 : subXC ∈ subclassesOf env0 baseC := by
    rw [subclasses_env0]
    exact List.mem_cons_self _ _
  have hs2 : subYC ∈ subclassesOf env0 baseC := by
    rw [subclasses_env0]
    exact List.mem_cons_of_mem _ (List.mem_cons_self _ _)
  exact C2_polymorphic_decode env0 baseC subXC subYC recX recY rfl rfl
    (by decide) hs1 hs2 rfl rfl hu1 hu2 (by decide) (by decide)
    (by decide) (by decide)

/-- C9 counterexample: the envelope tag emitted for a SubX record is the
bare class name "SubX", not the module-qualified identity "m.SubX" that
cls_nm produces and the registry seeds its identity entries with. -/
theorem C9_counterexample :
    aget (to_json_str recX false false) "_cls" = some (Value.str "SubX") ∧
    cls_nm recX.cls = "m.SubX" ∧ ("SubX" : String) ≠ "m.SubX" := by
  refine ⟨rfl, rfl, by decide⟩

/-- C9 (amended): the envelope carries the bare dunder name of the
concrete class in its tag field and the projected attribute map in its
params field; for module-level classes the bare name coincides with the
qualname entry the dispatch table also seeds, so the emitted tag resolves
through the table of the class back to the class itself, while the
module-qualified identity is a second, distinct key of the same table. -/
theorem C9_envelope_tag (env : Env) (r : Record)
    (hq : r.cls.qualname = r.cls.name)
    (hns : ∀ s ∈ subclassesOf env r.cls,
      cls_nm s ≠ r.cls.name ∧ s.qualname ≠ r.cls.name) :
    aget (to_json_str r false false) "_cls" = some (Value.str r.cls.name) ∧
    aget (to_json_str r false false) "_params" =
      some (Value.dict (asdict r false false)) ∧
    aget (dispatchTable env r.cls) r.cls.name = some r.cls := by
  refine ⟨by simp [to_json_str, class_dict, aget], ?_,
    dispatch_self env r.cls hq hns⟩
  simp [to_json_str, class_dict, aget,
    show ("_cls" : String) ≠ "_params" from by decide]

/-- C9 witness: the amended statement instantiated on recX. -/
theorem C9_witness :
    aget (to_json_str recX false false) "_cls" =
      some (Value.str recX.cls.name) ∧
    aget (to_json_str recX false false) "_params" =
      some (Value.dict (asdict recX false false)) ∧
    aget (dispatchTable env0 recX.cls) recX.cls.name = some recX.cls :=
  C9_envelope_tag env0 recX rfl (by decide)

theorem setitemB_eq (env : Env) (r : Record) (attr : String) (v : Value)
    (ds : List String) (hds : storedDefaults env r = some ds) :
    setitemB env r attr v =
      Except.ok
        { r with dict := aset r.dict (if attr ∈ ds then attr else "_" ++ attr) v } := by
  unfold setitemB
  rw [hds]

theorem underscore_append_ne (s : String) : "_" ++ s ≠ s := by
  intro h
  have h2 := congrArg String.length h
  rw [String.length_append] at h2
  have hone : String.length "_" = 1 := rfl
  omega

theorem akeys_aset {α : Type} (d : AList α) (k : String) (v : α) :
    akeys (aset d k v) = if k ∈ akeys d then akeys d else akeys d ++ [k] := by
  induction d with
  | nil => simp [aset, akeys]
  | cons kv rest ih =>
      obtain ⟨k0, v0⟩ := kv
      by_cases hk : k0 = k
      · subst hk
        simp [aset, akeys_cons, List.mem_cons]
      · have hk' : ¬ k = k0 := fun hh => hk hh.symm
        simp [aset, hk, akeys_cons, List.mem_cons, hk', ih]
        by_cases hm : k ∈ akeys rest <;> simp [hm]

theorem nodup_akeys_aset {α : Type} (d : AList α) (k : String) (v : α)
    (hnd : (akeys d).Nodup) : (akeys (aset d k v)).Nodup := by
  rw [akeys_aset]
  by_cases hm : k ∈ akeys d
  · simp [hm, hnd]
  · simp [hm]
    exact List.Nodup.append hnd (List.nodup_singleton k)
      (by simp [List.disjoint_singleton]; exact hm)

theorem nodup_akeys_aupdate {α : Type} (d e : AList α)
    (hnd : (akeys d).Nodup) : (akeys (aupdate d e)).Nodup := by
  induction e generalizing d with
  | nil => exact hnd
  | cons kv rest ih =>
      obtain ⟨k0, v0⟩ := kv
      rw [aupdate_cons]
      exact ih _ (nodup_akeys_aset _ _ _ hnd)

theorem aget_publicPart (d : Assoc) (k : String) :
    aget (publicPart d) k =
      if pyStartswith k "_" then none else aget d k := by
  unfold publicPart
  rw [aget_filter (fun k => !(pyStartswith k "_"))]
  by_cases h : pyStartswith k "_" <;> simp [h]

theorem storedDefaults_aset_ne (env : Env) (r : Record) (k : String)
    (v : Value) (hk : k ≠ "_default_attrs") :
    storedDefaults env { r with dict := aset r.dict k v } =
      storedDefaults env r := by
  simp [storedDefaults, getattrR, aget_aset_ne _ _ _ _ hk]

theorem asdict_hidden_no_defaults (r : Record)
    (hnd : (akeys r.dict).Nodup) : asdict r false true = r.dict := by
  unfold asdict
  simp [aupdate_nil_left_of_nodup _ hnd]

/-- C5 counterexample: on a record whose class declares only the attribute
b, set("extra", 1) succeeds by storing the value under the private alias,
but the following get("extra") raises KeyError instead of returning 1 as
the claim states: ClassworkAbc.getitem never consults the hidden alias. -/
theorem C5_counterexample :
    Except.bind (setitemB env0 recX "extra" (Value.int 1))
      (fun r' => getitem env0 r' "extra") =
      Except.error (Err.keyError "extra") := rfl

/-- C5 (amended): after set(name, value), get(name) returns value when
name is a declared-default attribute; otherwise the value sits under the
underscore alias, where aget finds it, and get(name) itself fails with
KeyError whenever neither an instance slot nor a class-chain attribute
exists under the exact requested name. -/
theorem C5_get_set_amended (env : Env) (r r' : Record) (name : String)
    (v : Value) (ds : List String)
    (hds : storedDefaults env r = some ds)
    (hset : setitemB env r name v = Except.ok r') :
    (name ∈ ds → getitem env r' name = Except.ok v) ∧
    (name ∉ ds →
      aget r'.dict ("_" ++ name) = some v ∧
      (aget r.dict name = none → clsAttr env r.cls name = none →
        getitem env r' name = Except.error (Err.keyError name))) := by
  rw [setitemB_eq env r name v ds hds] at hset
  constructor
  · intro hmem
    rw [if_pos hmem] at hset
    have hr' : r' = { r with dict := aset r.dict name v } :=
      (Except.ok.injEq _ _).mp hset.symm
    subst hr'
    unfold getitem getattrR
    simp [aget_aset_self]
  · intro hmem
    rw [if_neg hmem] at hset
    have hr' : r' = { r with dict := aset r.dict ("_" ++ name) v } :=
      (Except.ok.injEq _ _).mp hset.symm
    subst hr'
    refine ⟨by simp [aget_aset_self], ?_⟩
    intro hinst hcls
    unfold getitem getattrR
    rw [show aget (aset r.dict ("_" ++ name) v) name = aget r.dict name from
      aget_aset_ne _ _ _ _ (underscore_append_ne name)]
    simp [hinst, hcls]

/-- The record produced by setting extra on recX. -/
def recXextra : Record :=
  ⟨subXC, [("_default_attrs", strListVal ["b"]), ("b", Value.int 7),
    ("_extra", Value.int 1)]⟩

/-- C5 witness: instantiating the amended statement on recX with the
undeclared name extra. -/
theorem C5_witness :
    ("extra" ∈ ["b"] → getitem env0 recXextra "extra" = Except.ok (Value.int 1)) ∧
    ("extra" ∉ ["b"] →
      aget recXextra.dict ("_" ++ "extra") = some (Value.int 1) ∧
      (aget recX.dict "extra" = none → clsAttr env0 recX.cls "extra" = none →
        getitem env0 recXextra "extra" = Except.error (Err.keyError "extra"))) :=
  C5_get_set_amended env0 recX recXextra "extra" (Value.int 1) ["b"] rfl rfl

/-- C6 counterexample: after set("extra", 1) on recX, the hidden-inclusive
projection asdict(false, true) has no key named extra at all — the value
sits under the aliased key, so the claim that extra itself appears with
value 1 fails. -/
theorem C6_counterexample :
    Except.map (fun r' => aget (asdict r' false true) "extra")
      (setitemB env0 recX "extra" (Value.int 1)) =
      Except.ok Option.none := rfl

/-- C6 (amended): after set("extra", 1) on a record with no declared extra
field, extra is absent from the iteration of declared names and from the
default projection, and the value 1 appears in the hidden-inclusive
projection under the aliased key underscore-extra (not under extra
itself). -/
theorem C6_visibility_amended (env : Env) (r r' : Record) (ds : List String)
    (hds : storedDefaults env r = some ds)
    (hnd : (akeys r.dict).Nodup)
    (hex : "extra" ∉ ds)
    (hnot : aget r.dict "extra" = none)
    (hset : setitemB env r "extra" (Value.int 1) = Except.ok r') :
    iterKeys env r' = some ds ∧
    aget (asdict r' false false) "extra" = none ∧
    aget (asdict r' false true) "_extra" = some (Value.int 1) ∧
    aget (asdict r' false true) "extra" = none := by
  rw [setitemB_eq env r "extra" (Value.int 1) ds hds, if_neg hex] at hset
  have hr' : r' = { r with dict := aset r.dict "_extra" (Value.int 1) } :=
    (Except.ok.injEq _ _).mp hset.symm
  subst hr'
  have hnd' : (akeys (aset r.dict "_extra" (Value.int 1))).Nodup :=
    nodup_akeys_aset _ _ _ hnd
  have hda : aget (aset r.dict "_extra" (Value.int 1)) "_default_attrs" =
      aget r.dict "_default_attrs" :=
    aget_aset_ne _ _ _ _ (by decide)
  have hex' : aget (aset r.dict "_extra" (Value.int 1)) "extra" =
      aget r.dict "extra" :=
    aget_aset_ne _ _ _ _ (by decide)
  refine ⟨?_, ?_, ?_, ?_⟩
  · unfold iterKeys
    rw [storedDefaults_aset_ne env r "_extra" (Value.int 1) (by decide)]
    exact hds
  · rw [asdict_no_defaults _ hnd', aget_publicPart]
    simp [hex', hnot]
  · rw [asdict_hidden_no_defaults _ hnd']
    exact aget_aset_self _ _ _
  · rw [asdict_hidden_no_defaults _ hnd']
    rw [hex']
    exact hnot

/-- C6 witness: the amended statement instantiated on recX. -/
theorem C6_witness :
    iterKeys env0 recXextra = some ["b"] ∧
    aget (asdict recXextra false false) "extra" = none ∧
    aget (asdict recXextra false true) "_extra" = some (Value.int 1) ∧
    aget (asdict recXextra false true) "extra" = none :=
  C6_visibility_amended env0 recX recXextra ["b"] rfl (by decide)
    (by decide) rfl rfl

/-- C7: building a collection from the single bare record recX does not
wrap it as the one-element sequence holding recX; the tuple() call in the
bare-instance branch iterates the record and yields its declared attribute
names, so the stored collection is the string "b" rather than the record
(the annotated return type of the function promises records, which is what
the spec describes). -/
theorem C7_bare_record_bug :
    check_collection env0 (CollArg.bare recX) baseC =
      Except.ok [Item.val (Value.str "b")] := rfl

theorem pyStartswith_underscore_append (s : String) :
    pyStartswith ("_" ++ s) "_" = true := by
  unfold pyStartswith
  rw [String.data_append]
  show List.isPrefixOf ['_'] (['_'] ++ s.data) = true
  simp [List.isPrefixOf]

theorem public_ne_underscore_append (a x : String)
    (ha : pyStartswith a "_" = false) : a ≠ "_" ++ x := by
  intro h
  rw [h, pyStartswith_underscore_append] at ha
  exact Bool.noConfusion ha

theorem underscore_append_inj (a b : String)
    (h : "_" ++ a = "_" ++ b) : a = b := by
  have hd := congrArg String.data h
  rw [String.data_append, String.data_append] at hd
  exact String.ext (List.append_cancel_left hd)

theorem mem_of_aget_some {α : Type} (d : AList α) (k : String) (v : α)
    (h : aget d k = some v) : k ∈ akeys d := by
  induction d with
  | nil => simp [aget] at h
  | cons kv rest ih =>
      obtain ⟨k0, v0⟩ := kv
      by_cases hk : k0 = k
      · rw [akeys_cons, hk]
        exact List.mem_cons_self _ _
      · simp [aget, hk] at h
        rw [akeys_cons]
        exact List.mem_cons_of_mem _ (ih h)

theorem aget_some_of_mem {α : Type} (d : AList α) (k : String)
    (h : k ∈ akeys d) : ∃ v, aget d k = some v := by
  induction d with
  | nil => simp [akeys] at h
  | cons kv rest ih =>
      obtain ⟨k0, v0⟩ := kv
      by_cases hk : k0 = k
      · exact ⟨v0, by simp [aget, hk]⟩
      · rw [akeys_cons, List.mem_cons] at h
        rcases h with h | h
        · exact absurd h.symm hk
        · obtain ⟨v, hv⟩ := ih h
          exact ⟨v, by simp [aget, hk, hv]⟩

theorem mem_akeys_aupdate {α : Type} (d e : AList α) (k : String)
    (h : k ∈ akeys (aupdate d e)) : k ∈ akeys d ∨ k ∈ akeys e := by
  induction e generalizing d with
  | nil => exact Or.inl h
  | cons kv rest ih =>
      obtain ⟨k0, v0⟩ := kv
      rw [aupdate_cons] at h
      rcases ih _ h with h2 | h2
      · rw [akeys_aset] at h2
        by_cases hm : k0 ∈ akeys d
        · rw [if_pos hm] at h2
          exact Or.inl h2
        · rw [if_neg hm] at h2
          rcases List.mem_append.mp h2 with h3 | h3
          · exact Or.inl h3
          · right
            rw [akeys_cons]
            have : k = k0 := by simpa using h3
            rw [this]
            exact List.mem_cons_self _ _
      · right
        rw [akeys_cons]
        exact List.mem_cons_of_mem _ h2

theorem pSet_cls (env : Env) (r : Record) (a : String) (v : Value) :
    (pSet env r a v).cls = r.cls := by
  unfold pSet
  by_cases h : (getattrR env r a).isSome <;> simp [h]

/-- The storage slot ParamsAbc.setitem chooses. -/
def pSlot (env : Env) (r : Record) (attr : String) : String :=
  if (getattrR env r attr).isSome then attr
  else if pyStartswith attr "_" then attr else "_" ++ attr

theorem pSet_dict (env : Env) (r : Record) (a : String) (v : Value) :
    (pSet env r a v).dict = aset r.dict (pSlot env r a) v := by
  unfold pSet pSlot
  by_cases h : (getattrR env r a).isSome
  · simp [h]
  · by_cases h2 : pyStartswith a "_" <;> simp [h, h2]

theorem pSlot_cases (env : Env) (r : Record) (a : String) :
    pSlot env r a = a ∨ pSlot env r a = "_" ++ a := by
  unfold pSlot
  by_cases h : (getattrR env r a).isSome
  · exact Or.inl (by simp [h])
  · by_cases h2 : pyStartswith a "_"
    · exact Or.inl (by simp [h, h2])
    · exact Or.inr (by simp [h, h2])

theorem fold_pSet_cls (env : Env) (m : Assoc) :
    ∀ (r : Record),
      (m.foldl (fun r kv => pSet env r kv.1 kv.2) r).cls = r.cls := by
  induction m with
  | nil => intro r; rfl
  | cons kv rest ih =>
      intro r
      rw [List.foldl_cons, ih, pSet_cls]

theorem fold_pSet_preserve (env : Env) (m : Assoc) (n : String) :
    ∀ (r : Record), (∀ p ∈ m, p.1 ≠ n ∧ "_" ++ p.1 ≠ n) →
      aget ((m.foldl (fun r kv => pSet env r kv.1 kv.2) r).dict) n =
        aget r.dict n := by
  induction m with
  | nil => intro r _; rfl
  | cons kv rest ih =>
      intro r hcond
      rw [List.foldl_cons,
        ih _ (fun p hp => hcond p (List.mem_cons_of_mem _ hp)), pSet_dict]
      obtain ⟨h1, h2⟩ := hcond kv (List.mem_cons_self _ _)
      rcases pSlot_cases env r kv.1 with hs | hs
      · rw [hs]
        exact aget_aset_ne _ _ _ _ h1
      · rw [hs]
        exact aget_aset_ne _ _ _ _ h2

/-- Looking up a key through the record a pSet fold built: each public
entry lands either under its own name or under its underscore alias, and
either way ParamsAbc.getitem recovers it. -/
theorem fold_pSet_get (env : Env) :
    ∀ (m : Assoc) (r : Record),
      (∀ p ∈ m, pyStartswith p.1 "_" = false) →
      (∀ p ∈ m, aget r.dict p.1 = none ∧ aget r.dict ("_" ++ p.1) = none) →
      (akeys m).Nodup →
      ∀ k v, aget m k = some v →
        pGet env (m.foldl (fun r kv => pSet env r kv.1 kv.2) r) k =
          Except.ok v := by
  intro m
  induction m with
  | nil =>
      intro r _ _ _ k v h
      simp [aget] at h
  | cons kv rest ih =>
      intro r hpub hfresh hnd k v hget
      obtain ⟨k0, v0⟩ := kv
      rw [akeys_cons, List.nodup_cons] at hnd
      rw [List.foldl_cons]
      have hpub0 : pyStartswith k0 "_" = false :=
        hpub (k0, v0) (List.mem_cons_self _ _)
      have hf0 := hfresh (k0, v0) (List.mem_cons_self _ _)
      by_cases hk : k0 = k
      · subst hk
        have hv : v = v0 := by
          simp [aget] at hget
          exact hget.symm
        rw [hv]
        have hcond : ∀ p ∈ rest, p.1 ≠ k0 ∧ "_" ++ p.1 ≠ k0 := by
          intro p hp
          constructor
          · intro hh
            exact hnd.1 (hh ▸ List.mem_map.mpr ⟨p, hp, rfl⟩)
          · intro hh
            have hx := pyStartswith_underscore_append p.1
            rw [hh, hpub0] at hx
            exact Bool.noConfusion hx
        have hcond2 : ∀ p ∈ rest, p.1 ≠ "_" ++ k0 ∧ "_" ++ p.1 ≠ "_" ++ k0 := by
          intro p hp
          constructor
          · exact public_ne_underscore_append _ _
              (hpub p (List.mem_cons_of_mem _ hp))
          · intro hh
            have := underscore_append_inj _ _ hh
            exact hnd.1 (this ▸ List.mem_map.mpr ⟨p, hp, rfl⟩)
        have hpres1 := fold_pSet_preserve env rest k0 (pSet env r k0 v0) hcond
        have hpres2 := fold_pSet_preserve env rest ("_" ++ k0)
          (pSet env r k0 v0) hcond2
        have hclsr := fold_pSet_cls env rest (pSet env r k0 v0)
        by_cases hs : (getattrR env r k0).isSome
        · have hslot : pSlot env r k0 = k0 := by
            unfold pSlot
            simp [hs]
          have hfin : aget ((rest.foldl (fun r kv => pSet env r kv.1 kv.2)
              (pSet env r k0 v0)).dict) k0 = some v0 := by
            rw [hpres1, pSet_dict, hslot, aget_aset_self]
          simp [pGet, getattrR, hfin]
        · have hslot : pSlot env r k0 = "_" ++ k0 := by
            unfold pSlot
            simp [hs, hpub0]
          have hclsattr : clsAttr env r.cls k0 = none := by
            unfold getattrR at hs
            rw [hf0.1] at hs
            simpa using hs
          have hfin1 : aget ((rest.foldl (fun r kv => pSet env r kv.1 kv.2)
              (pSet env r k0 v0)).dict) k0 = none := by
            rw [hpres1, pSet_dict, hslot,
              aget_aset_ne _ _ _ _ (underscore_append_ne k0), hf0.1]
          have hfin2 : aget ((rest.foldl (fun r kv => pSet env r kv.1 kv.2)
              (pSet env r k0 v0)).dict) ("_" ++ k0) = some v0 := by
            rw [hpres2, pSet_dict, hslot, aget_aset_self]
          rw [pSet_cls] at hclsr
          simp [pGet, getattrR, hfin1, hfin2, hclsr, hclsattr]
      · have hget2 : aget rest k = some v := by
          simpa [aget, hk] using hget
        apply ih (pSet env r k0 v0)
          (fun p hp => hpub p (List.mem_cons_of_mem _ hp))
        · intro p hp
          have hpubp : pyStartswith p.1 "_" = false :=
            hpub p (List.mem_cons_of_mem _ hp)
          have hne1 : p.1 ≠ k0 := by
            intro hh
            exact hnd.1 (hh ▸ List.mem_map.mpr ⟨p, hp, rfl⟩)
          have hfp := hfresh p (List.mem_cons_of_mem _ hp)
          rw [pSet_dict]
          constructor
          · rcases pSlot_cases env r k0 with hsl | hsl
            · rw [hsl, aget_aset_ne _ _ _ _ (fun hh => hne1 hh.symm)]
              exact hfp.1
            · rw [hsl, aget_aset_ne _ _ _ _
                (fun hh => public_ne_underscore_append p.1 k0 hpubp hh.symm)]
              exact hfp.1
          · rcases pSlot_cases env r k0 with hsl | hsl
            · rw [hsl, aget_aset_ne _ _ _ _
                (fun hh => public_ne_underscore_append k0 p.1 hpub0 hh)]
              exact hfp.2
            · rw [hsl, aget_aset_ne _ _ _ _
                (fun hh => hne1 (underscore_append_inj _ _ hh).symm)]
              exact hfp.2
        · exact hnd.2
        · exact hget2

theorem pAsDict_default (r : Record) :
    pAsDict r false false = publicPart (aupdate [] r.dict) := rfl

theorem pKeys_nodup (r : Record) : (pKeys r).Nodup := by
  unfold pKeys
  rw [pAsDict_default]
  exact publicPart_nodup_of_nodup _ (nodup_akeys_aupdate _ _ List.nodup_nil)

theorem pKeys_public (r : Record) (k : String) (hk : k ∈ pKeys r) :
    pyStartswith k "_" = false := by
  unfold pKeys at hk
  rw [pAsDict_default] at hk
  unfold publicPart at hk
  have h2 := akeys_filter (fun k => !(pyStartswith k "_")) (aupdate [] r.dict)
  rw [h2] at hk
  have := (List.mem_filter.mp hk).2
  simpa using this

/-- Building an instance from a fresh public merged map: every entry is
recoverable through ParamsAbc.getitem. -/
theorem pInit_pGet (env : Env) (c : PyClass) (m : Assoc)
    (hnd : (akeys m).Nodup)
    (hpub : ∀ p ∈ m, pyStartswith p.1 "_" = false)
    (k : String) (v : Value) (hget : aget m k = some v) :
    pGet env (pInit env c [] m) k = Except.ok v := by
  unfold pInit
  rw [show aupdate (aupdate ([] : Assoc) []) m = aupdate [] m from rfl,
    aupdate_nil_left_of_nodup m hnd]
  exact fold_pSet_get env m ⟨c, []⟩ hpub (fun p _ => ⟨rfl, rfl⟩) hnd k v hget

/-- The elementwise comprehension of OperableAbc.op succeeds and stores
the combined value for every key of other when each lookup and each
application succeeds. -/
theorem foldlM_op_sum (env : Env) (a b : Record)
    (fn : Value → Value → Except Err Value) :
    ∀ (ks : List String) (acc : Assoc), ks.Nodup → (akeys acc).Nodup →
      (∀ k ∈ ks, ∃ va vb s, pGet env a k = Except.ok va ∧
        pGet env b k = Except.ok vb ∧ fn va vb = Except.ok s) →
      ∃ dct, (ks.foldlM (fun acc k =>
          match pGet env a k with
          | Except.error e => Except.error e
          | Except.ok xa =>
            match pGet env b k with
            | Except.error e => Except.error e
            | Except.ok xb =>
              match fn xa xb with
              | Except.error e => Except.error e
              | Except.ok v => Except.ok (aset acc k v)) acc) =
            Except.ok dct ∧
        (akeys dct).Nodup ∧
        (∀ k, k ∈ akeys dct → k ∈ akeys acc ∨ k ∈ ks) ∧
        (∀ k v, aget acc k = some v → k ∉ ks → aget dct k = some v) ∧
        (∀ k, k ∈ ks → ∃ va vb s, pGet env a k = Except.ok va ∧
          pGet env b k = Except.ok vb ∧ fn va vb = Except.ok s ∧
          aget dct k = some s) := by
  intro ks
  induction ks with
  | nil =>
      intro acc _ hacc _
      exact ⟨acc, rfl, hacc, fun k h => Or.inl h, fun k v hv _ => hv,
        fun k hk => absurd hk (List.not_mem_nil k)⟩
  | cons k0 rest ih =>
      intro acc hnd hacc hok
      rw [List.nodup_cons] at hnd
      obtain ⟨va0, vb0, s0, hva0, hvb0, hs0⟩ :=
        hok k0 (List.mem_cons_self _ _)
      obtain ⟨dct, hfold, hdnd, hkeys, hpres, hvals⟩ :=
        ih (aset acc k0 s0) hnd.2 (nodup_akeys_aset _ _ _ hacc)
          (fun k hk => hok k (List.mem_cons_of_mem _ hk))
      have hstep : (match pGet env a k0 with
          | Except.error e => Except.error e
          | Except.ok xa =>
            match pGet env b k0 with
            | Except.error e => Except.error e
            | Except.ok xb =>
              match fn xa xb with
              | Except.error e => Except.error e
              | Except.ok v => Except.ok (aset acc k0 v)) =
          Except.ok (aset acc k0 s0) := by
        simp only [hva0, hvb0, hs0]
      refine ⟨dct, ?_, hdnd, ?_, ?_, ?_⟩
      · rw [List.foldlM_cons, hstep]
        show (rest.foldlM (fun acc k =>
          match pGet env a k with
          | Except.error e => Except.error e
          | Except.ok xa =>
            match pGet env b k with
            | Except.error e => Except.error e
            | Except.ok xb =>
              match fn xa xb with
              | Except.error e => Except.error e
              | Except.ok v => Except.ok (aset acc k v)) (aset acc k0 s0)) =
          Except.ok dct
        exact hfold
      · intro k hk
        rcases hkeys k hk with h | h
        · rw [akeys_aset] at h
          by_cases hm : k0 ∈ akeys acc
          · rw [if_pos hm] at h
            exact Or.inl h
          · rw [if_neg hm] at h
            rcases List.mem_append.mp h with h2 | h2
            · exact Or.inl h2
            · right
              have : k = k0 := by simpa using h2
              rw [this]
              exact List.mem_cons_self _ _
        · exact Or.inr (List.mem_cons_of_mem _ h)
      · intro k v hv hks
        have hne : k ≠ k0 := fun hh => hks (hh ▸ List.mem_cons_self _ _)
        have hrest : k ∉ rest := fun hh => hks (List.mem_cons_of_mem _ hh)
        exact hpres k v (by rw [aget_aset_ne _ _ _ _ (fun hh => hne hh.symm)]; exact hv) hrest
      · intro k hk
        rcases List.mem_cons.mp hk with h | h
        · subst h
          refine ⟨va0, vb0, s0, hva0, hvb0, hs0, ?_⟩
          exact hpres k s0 (aget_aset_self _ _ _) hnd.1
        · exact hvals k h

/-- Computation rule for OperableAbc.op on add when the classes agree and
the comprehension succeeds. -/
theorem opRun_add_eq (env : Env) (a b : Record)
    (hcls : a.cls.name = b.cls.name) (dct : Assoc)
    (hfold : ((pKeys b).foldlM (fun acc k =>
        match pGet env a k with
        | Except.error e => Except.error e
        | Except.ok xa =>
          match pGet env b k with
          | Except.error e => Except.error e
          | Except.ok xb =>
            match pyAdd xa xb with
            | Except.error e => Except.error e
            | Except.ok v => Except.ok (aset acc k v)) ([] : Assoc)) =
      Except.ok dct) :
    opRun env a b "add" =
      Except.ok (pInit env a.cls [] (aupdate (pAsDict a false false) dct)) := by
  unfold opRun
  rw [if_pos hcls]
  show (match ((pKeys b).foldlM (fun acc k =>
      match pGet env a k with
      | Except.error e => Except.error e
      | Except.ok xa =>
        match pGet env b k with
        | Except.error e => Except.error e
        | Except.ok xb =>
          match pyAdd xa xb with
          | Except.error e => Except.error e
          | Except.ok v => Except.ok (aset acc k v)) ([] : Assoc)) with
    | Except.error e => Except.error e
    | Except.ok dct =>
        Except.ok (pInit env a.cls [] (aupdate (pAsDict a false false) dct))) =
    Except.ok (pInit env a.cls [] (aupdate (pAsDict a false false) dct))
  rw [hfold]

/-- C8: for records a and b of the same concrete class whose shared keys
carry addable values, combine(a, b, add) produces a new record whose value
at every key of the projection of b is the sum of the two values (keys
present only in the projection of a keep the value of a); and combine
fails with the same-class assertion (the TypeMismatchError of the spec)
whenever the two operands have different concrete classes, whatever their
attribute structure. -/
theorem C8_combine :
    (∀ (env : Env) (a b : Record),
      a.cls.name = b.cls.name →
      (∀ k ∈ pKeys b, ∃ va vb s, pGet env a k = Except.ok va ∧
        pGet env b k = Except.ok vb ∧ pyAdd va vb = Except.ok s) →
      ∃ r', opRun env a b "add" = Except.ok r' ∧
        (∀ k ∈ pKeys b, ∃ va vb s, pGet env a k = Except.ok va ∧
          pGet env b k = Except.ok vb ∧ pyAdd va vb = Except.ok s ∧
          pGet env r' k = Except.ok s) ∧
        (∀ k ∈ pKeys a, k ∉ pKeys b →
          ∃ v, aget (pAsDict a false false) k = some v ∧
            pGet env r' k = Except.ok v)) ∧
    (∀ (env : Env) (a b : Record) (m : String),
      a.cls.name ≠ b.cls.name →
      opRun env a b m =
        Except.error (Err.assertionError
          "Can only add together items of the same class")) := by
  constructor
  · intro env a b hcls hok
    obtain ⟨dct, hfold, hdnd, hkeys, hpres, hvals⟩ :=
      foldlM_op_sum env a b pyAdd (pKeys b) [] (pKeys_nodup b)
        List.nodup_nil hok
    have hr := opRun_add_eq env a b hcls dct hfold
    have hnds : (akeys (pAsDict a false false)).Nodup := by
      rw [pAsDict_default]
      exact publicPart_nodup_of_nodup _ (nodup_akeys_aupdate _ _ List.nodup_nil)
    have hndm : (akeys (aupdate (pAsDict a false false) dct)).Nodup :=
      nodup_akeys_aupdate _ _ hnds
    have hpubm : ∀ p ∈ aupdate (pAsDict a false false) dct,
        pyStartswith p.1 "_" = false := by
      intro p hp
      have hpk : p.1 ∈ akeys (aupdate (pAsDict a false false) dct) :=
        List.mem_map.mpr ⟨p, hp, rfl⟩
      rcases mem_akeys_aupdate _ _ _ hpk with h | h
      · exact pKeys_public a p.1 h
      · rcases hkeys p.1 h with h2 | h2
        · simp [akeys] at h2
        · exact pKeys_public b p.1 h2
    refine ⟨_, hr, ?_, ?_⟩
    · intro k hk
      obtain ⟨va, vb, sv, hva, hvb, hs, hdct⟩ := hvals k hk
      refine ⟨va, vb, sv, hva, hvb, hs, ?_⟩
      apply pInit_pGet env a.cls _ hndm hpubm
      rw [aget_aupdate_mem_nodup _ _ _ hdnd (mem_of_aget_some _ _ _ hdct)]
      exact hdct
    · intro k hka hkb
      obtain ⟨v, hv⟩ := aget_some_of_mem (pAsDict a false false) k hka
      refine ⟨v, hv, ?_⟩
      apply pInit_pGet env a.cls _ hndm hpubm
      rw [aget_aupdate_not_mem]
      · exact hv
      · intro hmem
        rcases hkeys _ hmem with h | h
        · simp [akeys] at h
        · exact hkb h
  · intro env a b m hne
    unfold opRun
    rw [if_neg hne]

/-- The class and records the C8 witness instantiates: one declared class
attribute x, two instances with x set. -/
def opCls : PyClass :=
  { module := "m", name := "P", qualname := "P", base := Option.none,
    classDict := [("x", ⟨MemberKind.plain, Value.int 0⟩)] }

def opRecA : Record := ⟨opCls, [("x", Value.int 1)]⟩

def opRecB : Record := ⟨opCls, [("x", Value.int 2)]⟩

/-- C8 witness: adding two one-field records of the same class. -/
theorem C8_witness :
    ∃ r', opRun [opCls] opRecA opRecB "add" = Except.ok r' ∧
      (∀ k ∈ pKeys opRecB, ∃ va vb s,
        pGet [opCls] opRecA k = Except.ok va ∧
        pGet [opCls] opRecB k = Except.ok vb ∧ pyAdd va vb = Except.ok s ∧
        pGet [opCls] r' k = Except.ok s) ∧
      (∀ k ∈ pKeys opRecA, k ∉ pKeys opRecB →
        ∃ v, aget (pAsDict opRecA false false) k = some v ∧
          pGet [opCls] r' k = Except.ok v) :=
  C8_combine.1 [opCls] opRecA opRecB rfl
    (by
      intro k hk
      have hk2 : k = "x" := by
        have : k ∈ ["x"] := hk
        simpa using this
      subst hk2
      exact ⟨Value.int 1, Value.int 2, Value.int 3, rfl, rfl, rfl⟩)

/-- The concrete class name of a construction result (empty when the call
raised). -/
def resClsName : Except Err Record → String
  | Except.ok r => r.cls.name
  | Except.error _ => ""

/-- C10 counterexample: constructor calls interfere through the shared
mutable default params dict of ClassworkAbc.new.  A first kwargs-only call
Base(_cls="Base", _params={"_cls": "SubX"}) merges the nested payload into
the shared default after the outer tag was popped, leaving a _cls entry
behind; the later kwargs-only call Base(y=2) then dispatches to SubX,
while the same call against a clean default builds a Base instance. -/
theorem C10_counterexample :
    resClsName ((cwCallKw env0 baseC
      ((cwCallKw env0 baseC []
        [("_cls", Value.str "Base"),
         ("_params", Value.dict [("_cls", Value.str "SubX")])]).state)
      [("y", Value.int 2)]).res) = "SubX" ∧
    resClsName ((cwCallKw env0 baseC [] [("y", Value.int 2)]).res) = "Base" :=
  ⟨rfl, rfl⟩

theorem cwCallKw_res (env : Env) (cls : PyClass) (d kw : Assoc) :
    (cwCallKw env cls d kw).res =
      match (cwNewRun env cls d kw).1 with
      | Except.error e => Except.error e
      | Except.ok c' => cwbInit env c' [] kw := by
  unfold cwCallKw
  generalize cwNewRun env cls d kw = x
  obtain ⟨f, p⟩ := x
  cases f <;> rfl

theorem cwNewRun_fst_indep (env : Env) (cls : PyClass) (d1 d2 kw : Assoc)
    (hkw : (akeys kw).Nodup)
    (h1c : aget d1 "_cls" = none) (h1p : aget d1 "_params" = none)
    (h2c : aget d2 "_cls" = none) (h2p : aget d2 "_params" = none) :
    (cwNewRun env cls d1 kw).1 = (cwNewRun env cls d2 kw).1 := by
  have haux : ∀ (d : Assoc), aget d "_cls" = none → aget d "_params" = none →
      aget (aupdate d kw) "_cls" = aget kw "_cls" ∧
      aget (aerase (aupdate d kw) "_cls") "_params" = aget kw "_params" := by
    intro d hdc hdp
    constructor
    · by_cases hc : "_cls" ∈ akeys kw
      · rw [aget_aupdate_mem_nodup _ _ _ hkw hc]
      · rw [aget_aupdate_not_mem _ _ _ hc, hdc]
        exact (aget_eq_none kw _ hc).symm
    · rw [aget_aerase_ne _ _ _ (by decide)]
      by_cases hp : "_params" ∈ akeys kw
      · rw [aget_aupdate_mem_nodup _ _ _ hkw hp]
      · rw [aget_aupdate_not_mem _ _ _ hp, hdp]
        exact (aget_eq_none kw _ hp).symm
  unfold cwNewRun
  rw [(haux d1 h1c h1p).1, (haux d2 h2c h2p).1,
    (haux d1 h1c h1p).2, (haux d2 h2c h2p).2]
  cases hkc : aget kw "_cls" with
  | none => rfl
  | some clsv =>
    simp only []
    cases clsv with
    | str s =>
        simp only []
        cases hf : aget (dispatchTable env cls) s with
        | none => rfl
        | some c' =>
            simp only []
            cases hv : aget kw "_params" with
            | none => rfl
            | some v => cases v <;> rfl
    | null => rfl
    | bool b => rfl
    | int n => rfl
    | list xs => rfl
    | dict kvs => rfl

/-- C10 (amended): a kwargs-only construction call is isolated from
earlier calls as long as no earlier call has left a class tag or a nested
payload entry in the shared default params dict (which only a call passing
_cls together with a _params payload that itself carries such keys, or a
bare _params keyword, can do); under that condition the constructed record
is the same whatever state the shared default is in, and caller-passed
mappings are only read, never written. -/
theorem C10_kwargs_isolation (env : Env) (cls : PyClass) (d1 d2 kw : Assoc)
    (hkw : (akeys kw).Nodup)
    (h1c : aget d1 "_cls" = none) (h1p : aget d1 "_params" = none)
    (h2c : aget d2 "_cls" = none) (h2p : aget d2 "_params" = none) :
    (cwCallKw env cls d1 kw).res = (cwCallKw env cls d2 kw).res := by
  rw [cwCallKw_res, cwCallKw_res,
    cwNewRun_fst_indep env cls d1 d2 kw hkw h1c h1p h2c h2p]

/-- C10 witness: a default dict polluted with an ordinary entry does not
change the record a kwargs-only call builds. -/
theorem C10_witness :
    (cwCallKw env0 baseC [("x", Value.int 9)] [("y", Value.int 2)]).res =
      (cwCallKw env0 baseC [] [("y", Value.int 2)]).res :=
  C10_kwargs_isolation env0 baseC [("x", Value.int 9)] [] [("y", Value.int 2)]
    (by decide) rfl rfl rfl rfl

end Classwork
